import Mathlib

/-!
A verification development for the `hive` repository: a shallow embedding,
in Lean 4, of the parts of the code that the specification talks about,
together with theorems settling the specification's claims.

Embedded files:
* `src/core/src/task/executor.rs` — the worker executor: its coalescing
  waker (`MyWaker`), panic drop-guard (`PanicNotifier`), bounded task
  channel, and the worker select loop.
* `src/hive-core/src/error.rs` — the error taxonomy and its conversions.
* `src/hive-core/src/path.rs` — `PathMatcher` and `normalize_path_str`.

Rust strings handled character-wise are embedded as `List Char`; channels
are embedded as explicit queues (`List`); the worker loop body is embedded
as a step function from a loop event to a state update plus a
continue/break outcome.  External crates (`mlua`, `backtrace`, `tokio`
channels, `regex`) are modelled by their observable behaviour at the
points the embedded code uses them.
-/

namespace Hive

/-! ## `src/core/src/task/executor.rs` — `MyWaker`

```rust
struct MyWaker { tx: mpsc::UnboundedSender<()>, sent: AtomicBool }
fn wake_by_ref(self: &Arc<Self>) {
  if !self.sent.load(Relaxed) { let _ = self.tx.send(()); self.sent.store(true, Relaxed); }
}
```

The unbounded waker channel is embedded as a queue `List Unit`; the waker
carries only its `sent` guard (the `tx` half is the queue argument). -/

structure MyWaker where
  sent : Bool
  deriving DecidableEq, Repr

/-- `MyWaker::from_tx`: a fresh waker has `sent = AtomicBool::new(false)`. -/
def MyWaker.from_tx : MyWaker := ⟨false⟩

/-- `MyWaker::wake_by_ref`: if the guard is unset, send `()` on the waker
channel and set the guard; otherwise do nothing. -/
def MyWaker.wake_by_ref (w : MyWaker) (q : List Unit) : MyWaker × List Unit :=
  if !w.sent then (⟨true⟩, q ++ [()]) else (w, q)

/-- `MyWaker::wake` just delegates to `wake_by_ref`. -/
def MyWaker.wake (w : MyWaker) (q : List Unit) : MyWaker × List Unit :=
  w.wake_by_ref q

/-- A call in a sequence of waker invocations: `wake` or `wake_by_ref`. -/
inductive WakeOp where
  | wake
  | wakeByRef
  deriving DecidableEq, Repr

/-- Run a sequence of `wake` / `wake_by_ref` calls against one waker
instance and the waker channel. -/
def applyWakes : List WakeOp → MyWaker × List Unit → MyWaker × List Unit
  | [], s => s
  | .wake :: ops, (w, q) => applyWakes ops (w.wake q)
  | .wakeByRef :: ops, (w, q) => applyWakes ops (w.wake_by_ref q)

/-! ## `PanicNotifier` and the panic flag

```rust
struct PanicNotifier(Arc<AtomicBool>);
impl Drop for PanicNotifier {
  fn drop(&mut self) { if std::thread::panicking() { self.0.store(true, Ordering::Release) } }
}
```
-/

/-- The effect of `PanicNotifier::drop` on the shared flag, given whether
the thread is unwinding from a panic. -/
def PanicNotifier.dropRun (panicking : Bool) (flag : Bool) : Bool :=
  if panicking then true else flag

/-- `Executor::new` initialises the flag with `AtomicBool::new(false)`. -/
def Executor.initPanicked : Bool := false

/-- `Executor::is_panicked` loads the shared flag. -/
def Executor.is_panicked (flag : Bool) : Bool := flag

/-! ## The bounded task channel

`Executor::new` creates `mpsc::channel::<Task>(16)`; `Executor::send`
forwards to `task_tx.send(..)`, which succeeds immediately when a slot is
free, suspends the sender when the queue is full, and errors exactly when
the receiving half has been dropped. -/

deriving instance DecidableEq for Except

/-- The outcome of `TaskFuture::poll` once the task completes: the
`mlua::Result<()>` yielded to the worker loop, or still pending.  (A
`TaskFuture` is embedded by its observable polling outcome.) -/
inductive TaskPoll where
  | pending
  | done (r : Except String Unit)
  deriving DecidableEq, Repr

/-- A submitted `Task`, embedded by what `msg.take(rt.lua())` yields on the
worker: `none` when the take is empty, otherwise the task's poll status. -/
def Task := Option TaskPoll

instance : DecidableEq Task := by
  unfold Task
  infer_instance

/-- State of a `tokio::sync::mpsc` bounded channel of `Task`s. -/
structure TaskChan where
  cap : Nat
  queue : List Task
  receiverAlive : Bool

/-- What `task_tx.send(task).await` does, one send at a time. -/
inductive SendResult where
  | ok (c : TaskChan)
  | pending
  | errClosed

/-- `Executor::send` via `mpsc::Sender::send`: error iff the receiver is
gone; enqueue when a slot is free; otherwise the sender suspends. -/
def TaskChan.send (c : TaskChan) (t : Task) : SendResult :=
  if !c.receiverAlive then .errClosed
  else if c.queue.length < c.cap then .ok ⟨c.cap, c.queue ++ [t], c.receiverAlive⟩
  else .pending

/-- `task_rx.recv()`: dequeue the oldest task, if any. -/
def TaskChan.recv (c : TaskChan) : Option Task × TaskChan :=
  (c.queue.head?, ⟨c.cap, c.queue.tail, c.receiverAlive⟩)

/-- The task channel as `Executor::new` creates it: `mpsc::channel(16)`. -/
def Executor.newTaskChan : TaskChan := ⟨16, [], true⟩

/-! ## The worker select loop

```rust
loop {
  match select(select(stop_rx_mut, waker_recv), select(clean, new_task_recv)).await {
    Left((Left(_), _)) => { debug!(".. stopping"); break; }
    Left((Right(_), _)) => { /* fresh waker; poll_next; log error; re-wake */ }
    Right((Left(_), _)) => rt.cleanup(),
    Right((Right((Some(msg), _)), _)) => { /* take; push TaskFuture; wake */ }
    Right((Right((None, _)), _)) => break,
  }
}
```

The loop body is embedded as a step function over the event the `select`
resolved to. -/

/-- The event a worker-loop iteration's `select` resolved to. -/
inductive WEvent where
  | stopFired
  | wakerMsg
  | cleanTick
  | newTask (msg : Task)
  | taskChanClosed
  deriving DecidableEq

/-- A log line the loop body emits. -/
inductive LogEntry where
  | debugStopping
  | errorPolling (e : String)
  deriving DecidableEq, Repr

/-- `FuturesUnordered::poll_next`: yield (and remove) the first completed
task's result, or `Poll::Pending` (`none`) when none is completed.  An
empty set yields `Poll::Ready(None)`, which the loop body also ignores. -/
def pollNext : List TaskPoll → Option (Except String Unit) × List TaskPoll
  | [] => (none, [])
  | .pending :: ts =>
    let (r, ts') := pollNext ts
    (r, .pending :: ts')
  | .done r :: ts => (some r, ts)

/-- Worker-local state threaded through loop iterations. -/
structure WorkerState where
  tasks : List TaskPoll
  waker : MyWaker
  wakerQueue : List Unit
  log : List LogEntry
  cleanups : Nat

/-- Whether the iteration `break`s out of the loop or continues. -/
inductive Outcome where
  | continueLoop
  | breakLoop
  deriving DecidableEq, Repr

/-- One iteration of the worker loop body, on the event `select` resolved
to.  A `wakerMsg` event consumes one `()` from the waker channel before
running its branch. -/
def workerStep (s : WorkerState) (ev : WEvent) : WorkerState × Outcome :=
  match ev with
  | .stopFired => ({ s with log := s.log ++ [.debugStopping] }, .breakLoop)
  | .wakerMsg =>
    let q0 := s.wakerQueue.tail
    let waker := MyWaker.from_tx
    match pollNext s.tasks with
    | (some result, tasks') =>
      let log' := match result with
        | .error e => s.log ++ [.errorPolling e]
        | .ok _ => s.log
      let (waker', q') := waker.wake_by_ref q0
      ({ s with tasks := tasks', waker := waker', wakerQueue := q', log := log' },
        .continueLoop)
    | (none, _) =>
      ({ s with waker := waker, wakerQueue := q0 }, .continueLoop)
  | .cleanTick => ({ s with cleanups := s.cleanups + 1 }, .continueLoop)
  | .newTask msg =>
    match msg with
    | some t =>
      let (waker', q') := s.waker.wake_by_ref s.wakerQueue
      ({ s with tasks := s.tasks ++ [t], waker := waker', wakerQueue := q' },
        .continueLoop)
    | none => (s, .continueLoop)
  | .taskChanClosed => (s, .breakLoop)

/-! ## `src/hive-core/src/error.rs`

The error taxonomy.  External payload types are embedded by opaque
carriers: `Permission`, the I/O / regex / hyper errors and the JSON detail
as `String`s, `hyper::StatusCode` as `Nat`.  `backtrace::Backtrace::new()`
is embedded as a single captured-marker value (the claims only observe
whether a backtrace was captured).  `mlua::Error` is an external enum; it
is embedded by the two shapes the embedded code distinguishes: an opaque
script-runtime error, and `mlua::Error::external(x)` holding a boxed hive
`Error` (its kind and backtrace). -/

/-- `backtrace::Backtrace`: the claims only observe presence, so a capture
is a single marker value. -/
inductive Backtrace where
  | captured
  deriving DecidableEq, Repr

/-- `Backtrace::new()`. -/
def Backtrace.new : Backtrace := .captured

mutual

/-- `mlua::Error` (external crate): either an opaque script-runtime error,
or `mlua::Error::external(x)` wrapping a hive `Error` (kind, backtrace). -/
inductive MluaError where
  | runtimeError (msg : String)
  | externalHiveError (kind : ErrorKind) (backtrace : Option Backtrace)
  deriving DecidableEq

/-- `ErrorKind` from `src/hive-core/src/error.rs`. -/
inductive ErrorKind where
  | invalidServiceName (name : String)
  | serviceNotFound (name : String)
  | servicePathNotFound (service : String) (path : String)
  | serviceExists (name : String)
  | serviceLive (name : String)
  | serviceStopped (name : String)
  | serviceDropped
  | permissionNotGranted (p : String)
  | lua (e : MluaError)
  | io (e : String)
  | regex (e : String)
  | hyper (e : String)
  | luaCustom (status : Nat) (error : String) (detail : String)
  deriving DecidableEq

end

/-- `Error`: an `ErrorKind` plus an optional backtrace. -/
structure Error where
  kind : ErrorKind
  backtrace : Option Backtrace
  deriving DecidableEq

/-- `impl From<ErrorKind> for Error`: the six name/lookup/lifecycle kinds
get no backtrace; every other kind captures one. -/
def Error.fromKind (kind : ErrorKind) : Error :=
  let backtrace := match kind with
    | .invalidServiceName _
    | .serviceNotFound _
    | .servicePathNotFound _ _
    | .serviceExists _
    | .serviceLive _
    | .serviceStopped _ => none
    | _ => some Backtrace.new
  ⟨kind, backtrace⟩

/-- `impl From<Error> for mlua::Error`: a `Lua` kind is unwrapped to the
original `mlua::Error`; anything else is wrapped by
`mlua::Error::external(x)`. -/
def MluaError.fromError (x : Error) : MluaError :=
  match x.kind with
  | .lua e => e
  | k => .externalHiveError k x.backtrace

/-- `impl From<mlua::Error> for Error` (from `simple_impl_from_errors!`):
`ErrorKind::from(error).into()`. -/
def Error.fromMluaError (e : MluaError) : Error :=
  Error.fromKind (.lua e)

/-- The kinds `From<ErrorKind> for Error` builds without a backtrace
(spec side, read off the stated policy). -/
def kindSkipsBacktrace : ErrorKind → Bool
  | .invalidServiceName _ => true
  | .serviceNotFound _ => true
  | .servicePathNotFound _ _ => true
  | .serviceExists _ => true
  | .serviceLive _ => true
  | .serviceStopped _ => true
  | _ => false

/-! ## `src/hive-core/src/path.rs` — `PathMatcher`

`PathMatcher::new` walks the matches of `PATH_PARAMS_REGEX = :([^/]+)|\*`
over the pattern and builds a regex source string plus the parameter-name
list.  The tokenisation performed by `captures_iter` is embedded by
`scan`: left to right, `:` followed by a maximal non-empty run of
non-`/` characters is a `param` token, a `*` not swallowed by such a run
is a `star` token, and every other character is literal text.  The
compiled `Regex` is embedded by its token sequence; matching (`captures`)
is embedded by a greedy backtracking interpreter over the tokens, with the
usual leftmost-greedy capture semantics of `([^/]+)` and `(.*)`.  Pattern
and path strings are embedded as `List Char`. -/

/-- A token of the compiled pattern: literal text, a `:name` parameter, or
a `*` wildcard. -/
inductive Tok where
  | lit (l : List Char)
  | param (name : List Char)
  | star
  deriving DecidableEq, Repr

/-- Prepend a literal character, merging with a leading literal token. -/
def consLit (c : Char) : List Tok → List Tok
  | .lit l :: ts => .lit (c :: l) :: ts
  | ts => .lit [c] :: ts

mutual

/-- Tokenise a pattern the way `PATH_PARAMS_REGEX.captures_iter` does. -/
def scan : List Char → List Tok
  | [] => []
  | ':' :: rest =>
    match rest.head? with
    | some c => if c = '/' then consLit ':' (scan rest) else scanParam [] rest
    | none => consLit ':' (scan rest)
  | '*' :: rest => .star :: scan rest
  | c :: rest => consLit c (scan rest)

/-- Accumulate the maximal non-`/` run that follows a `:`. -/
def scanParam (accRev : List Char) : List Char → List Tok
  | [] => [.param accRev.reverse]
  | c :: rest =>
    if c = '/' then .param accRev.reverse :: consLit '/' (scan rest)
    else scanParam (c :: accRev) rest

end

/-- `regex_syntax::is_meta_character`: the characters `regex::escape`
prefixes with a backslash. -/
def isMetaCharacter (c : Char) : Bool :=
  c = '\\' || c = '.' || c = '+' || c = '*' || c = '?' || c = '(' || c = ')' ||
  c = '|' || c = '[' || c = ']' || c = '\x7b' || c = '\x7d' || c = '^' ||
  c = '$' || c = '#' || c = '&' || c = '-' || c = '~'

/-- `regex::escape`, character by character. -/
def escapeRegex (l : List Char) : List Char :=
  l.flatMap fun c => if isMetaCharacter c then ['\\', c] else [c]

/-- The loop body of `PathMatcher::new`: for each token append the escaped
literal, `([^/]+)` or `(.*)` to the regex source, and push each `:name` /
`*` parameter name, in order. -/
def buildLoop : List Tok → List Char × List (List Char)
  | [] => ([], [])
  | .lit l :: ts =>
    let (r, ns) := buildLoop ts
    (escapeRegex l ++ r, ns)
  | .param name :: ts =>
    let (r, ns) := buildLoop ts
    ("([^/]+)".data ++ r, name :: ns)
  | .star :: ts =>
    let (r, ns) := buildLoop ts
    ("(.*)".data ++ r, ['*'] :: ns)

/-- `PathMatcher`: the pattern, the regex source string, the compiled
regex (embedded as its token sequence), and the parameter names. -/
structure PathMatcher where
  path : List Char
  regexStr : List Char
  regexToks : List Tok
  param_names : List (List Char)
  deriving DecidableEq, Repr

/-- `PathMatcher::new`: anchor with `^`, prepend `/` when the pattern does
not start with one, then render the tokens; `$` closes the regex. -/
def PathMatcher.new (matcher : List Char) : PathMatcher :=
  let toks :=
    (if matcher.head? = some '/' then [] else [Tok.lit ['/']]) ++ scan matcher
  let (body, names) := buildLoop toks
  { path := matcher
    regexStr := '^' :: (body ++ ['$'])
    regexToks := toks
    param_names := names }

mutual

/-- Match a token sequence against a whole string (the regex is anchored
on both ends), returning the captures in order.  `fuel` bounds the
recursion depth of the backtracking search; `regexCaptures` supplies a
sufficient amount. -/
def matchToks : Nat → List Tok → List Char → Option (List (List Char))
  | 0, _, _ => none
  | _ + 1, [], s => if s.isEmpty then some [] else none
  | fuel + 1, .lit l :: rest, s =>
    if l.isPrefixOf s then matchToks fuel rest (s.drop l.length) else none
  | fuel + 1, .param _ :: rest, s =>
    tryCapture fuel rest s ((s.takeWhile (fun c => !(c = '/'))).length) 1
  | fuel + 1, .star :: rest, s => tryCapture fuel rest s s.length 0

/-- Greedy capture: try the longest candidate first (`k` characters, down
to `kmin`), backtracking on failure of the rest of the tokens. -/
def tryCapture : Nat → List Tok → List Char → Nat → Nat → Option (List (List Char))
  | 0, _, _, _, _ => none
  | fuel + 1, rest, s, k, kmin =>
    if k < kmin then none
    else
      match matchToks fuel rest (s.drop k) with
      | some caps => some (s.take k :: caps)
      | none => if k = 0 then none else tryCapture fuel rest s (k - 1) kmin

end

/-- `Regex::captures` for a compiled matcher: every parenthesised group of
the generated regexes participates in any match. -/
def regexCaptures (toks : List Tok) (s : List Char) : Option (List (List Char)) :=
  matchToks ((toks.length + 1) * (s.length + 3)) toks s

/-- `PathMatcher::gen_params`: on a match, zip the parameter names with
the captured substrings (every group participates, so the source's
`filter_map` over optional groups keeps every pair). -/
def PathMatcher.gen_params (m : PathMatcher) (path : List Char) :
    Option (List (List Char × List Char)) :=
  (regexCaptures m.regexToks path).map fun caps => m.param_names.zip caps

/-- Whether the compiled regex matches a path. -/
def PathMatcher.regexMatches (m : PathMatcher) (path : List Char) : Bool :=
  (regexCaptures m.regexToks path).isSome

/-- The parameter name a token contributes, if any (spec side: `:name`
tokens contribute `name`, `*` tokens contribute `*`). -/
def tokParamName : Tok → Option (List Char)
  | .lit _ => none
  | .param name => some name
  | .star => some ['*']

/-- The regex text a token renders to (spec side: literals appear
regex-escaped, `:name` as `([^/]+)`, `*` as `(.*)`). -/
def renderTok : Tok → List Char
  | .lit l => escapeRegex l
  | .param _ => "([^/]+)".data
  | .star => "(.*)".data

/-! ## `src/hive-core/src/path.rs` — `normalize_path_str`

```rust
pub fn normalize_path_str(path: &str) -> String {
  let mut result = Vec::new();
  let segments = path.split(['/', '\\']).filter(|&x| x != "" && x != ".");
  for s in segments {
    if s == ".." { result.pop(); } else { result.push(s); }
  }
  result.join("/")
}
```
-/

/-- `str::split` on a character predicate: splitting always yields one
more piece than there are separators (an empty string yields `[""]`). -/
def splitChars (p : Char → Bool) : List Char → List (List Char)
  | [] => [[]]
  | c :: cs =>
    if p c then [] :: splitChars p cs
    else
      match splitChars p cs with
      | [] => [[c]]
      | s :: ss => (c :: s) :: ss

/-- `[T]::join` for string segments. -/
def joinSep (sep : List Char) : List (List Char) → List Char
  | [] => []
  | [s] => s
  | s :: ss => s ++ sep ++ joinSep sep ss

/-- The `for` loop of `normalize_path_str`: `..` pops the most recent kept
segment (a no-op at the root), anything else is pushed.  `accRev` is the
`result` vector with its most recent element first. -/
def normLoop (accRev : List (List Char)) : List (List Char) → List (List Char)
  | [] => accRev.reverse
  | s :: ss =>
    if s = ['.', '.'] then normLoop accRev.tail ss
    else normLoop (s :: accRev) ss

/-- `normalize_path_str`: split on `/` and `\`, drop empty and `.`
segments, resolve `..`, and join with `/`. -/
def normalize_path_str (path : List Char) : List Char :=
  joinSep ['/']
    (normLoop []
      ((splitChars (fun c => c = '/' || c = '\\') path).filter
        fun s => decide (s ≠ [] ∧ s ≠ ['.'])))

/-! ## Theorems -/

/-- Any further waker call on an instance whose guard is set is silent. -/
theorem applyWakes_of_sent (ops : List WakeOp) (q : List Unit) :
    applyWakes ops (⟨true⟩, q) = (⟨true⟩, q) := by
  induction ops with
  | nil => rfl
  | cons op ops ih =>
    cases op <;> simpa [applyWakes, MyWaker.wake, MyWaker.wake_by_ref] using ih

/-- Claim C1: over any sequence of `wake` / `wake_by_ref` calls on one
fresh `MyWaker` instance, exactly the first call enqueues one `()` on the
waker channel and flips the `sent` guard to `true`; every subsequent call
on the same instance enqueues nothing. -/
theorem wake_enqueues_exactly_once (ops : List WakeOp) (q : List Unit) :
    applyWakes ops (MyWaker.from_tx, q) =
      if ops.isEmpty then (MyWaker.from_tx, q) else (⟨true⟩, q ++ [()]) := by
  cases ops with
  | nil => rfl
  | cons op ops =>
    cases op <;>
      simp [applyWakes, MyWaker.wake, MyWaker.wake_by_ref, MyWaker.from_tx,
        applyWakes_of_sent]

/-- Claim C2, counterexample: `ServiceNotFound` is not the name-validation
kind, yet its `Error` is built with no backtrace. -/
theorem serviceNotFound_has_no_backtrace :
    (Error.fromKind (ErrorKind.serviceNotFound "a")).backtrace = none := rfl

/-- Claim C2, amended: exactly the six service name/lookup/lifecycle kinds
(`InvalidServiceName`, `ServiceNotFound`, `ServicePathNotFound`,
`ServiceExists`, `ServiceLive`, `ServiceStopped`) are built with no
backtrace; every other kind captures a backtrace at construction. -/
theorem backtrace_skipped_iff_service_kind (k : ErrorKind) :
    (Error.fromKind k).backtrace = none ↔ kindSkipsBacktrace k = true := by
  cases k <;> simp [Error.fromKind, kindSkipsBacktrace]

/-- Claim C5: converting an `mlua::Error` into a core `Error` wraps it as
`ErrorKind::Lua`, and converting that `Error` back into an `mlua::Error`
returns the original error unchanged (round-trip preserved). -/
theorem lua_error_round_trip (e : MluaError) :
    (Error.fromMluaError e).kind = .lua e
    ∧ MluaError.fromError (Error.fromMluaError e) = e :=
  ⟨rfl, rfl⟩

/-- Claim C8: the shared panic flag starts `false`; `PanicNotifier::drop`
sets it exactly when the thread is panicking (so a normal exit never sets
it, and once set it is never cleared); `is_panicked` observes it. -/
theorem panic_flag_set_only_on_panic :
    Executor.initPanicked = false
    ∧ (∀ panicking flag, PanicNotifier.dropRun panicking flag = (panicking || flag))
    ∧ (∀ flag, Executor.is_panicked flag = flag) := by
  decide

/-- Claim C6: the task channel has capacity exactly 16; `send` fails with
the channel-closed error exactly when the receiving half is gone; a send
against a full queue of 16 suspends, and succeeds again once the worker
consumes one task. -/
theorem send_backpressure_and_closure :
    Executor.newTaskChan.cap = 16
    ∧ (∀ (c : TaskChan) (t : Task), c.send t = .errClosed ↔ c.receiverAlive = false)
    ∧ (∀ (c : TaskChan) (t t' : Task), c.cap = 16 → c.queue.length = 16 →
        c.receiverAlive = true →
        c.send t = .pending
        ∧ (c.recv).2.send t' = .ok ⟨16, c.queue.tail ++ [t'], true⟩) := by
  refine ⟨rfl, ?_, ?_⟩
  · intro c t
    cases hc : c.receiverAlive
    · simp [TaskChan.send, hc]
    · simp only [TaskChan.send, hc]
      simp only [Bool.not_true, Bool.false_eq_true, if_false]
      split <;> simp
  · rintro ⟨cap, queue, alive⟩ t t' hcap hlen halive
    simp only at hcap hlen halive
    subst hcap halive
    constructor
    · simp [TaskChan.send, hlen]
    · simp [TaskChan.recv, TaskChan.send, List.length_tail, hlen]

/-- Witness for claim C6 at a concrete full channel. -/
theorem send_backpressure_witness :
    TaskChan.send ⟨16, List.replicate 16 none, true⟩ none = .pending
    ∧ (TaskChan.recv ⟨16, List.replicate 16 none, true⟩).2.send none
      = .ok ⟨16, (List.replicate 16 (none : Task)).tail ++ [none], true⟩ :=
  send_backpressure_and_closure.2.2 ⟨16, List.replicate 16 none, true⟩ none none rfl
    (by decide) rfl

/-- Claim C7: when polling the active task set yields a completed task
whose result is an error, the worker logs the error, removes that task
from the active set, and the loop continues to the next iteration instead
of exiting. -/
theorem poll_error_logged_and_loop_continues
    (s : WorkerState) (e : String) (tasks' : List TaskPoll)
    (h : pollNext s.tasks = (some (Except.error e), tasks')) :
    workerStep s .wakerMsg =
      ({ s with
          tasks := tasks'
          waker := ⟨true⟩
          wakerQueue := s.wakerQueue.tail ++ [()]
          log := s.log ++ [.errorPolling e] }, .continueLoop) := by
  simp [workerStep, h, MyWaker.wake_by_ref, MyWaker.from_tx]

/-- Witness for claim C7 at a concrete worker state. -/
theorem poll_error_logged_witness :
    pollNext [TaskPoll.done (Except.error "boom")] = (some (Except.error "boom"), [])
    ∧ workerStep ⟨[TaskPoll.done (Except.error "boom")], ⟨false⟩, [()], [], 0⟩ .wakerMsg
      = (⟨[], ⟨true⟩, [()], [LogEntry.errorPolling "boom"], 0⟩, .continueLoop) :=
  ⟨rfl, poll_error_logged_and_loop_continues _ "boom" [] rfl⟩

/-- Claim C9: a worker-loop iteration breaks out of the loop exactly on
the two events: the stop one-shot firing, and the task channel closing;
every other event continues the loop. -/
theorem worker_loop_break_iff (s : WorkerState) (ev : WEvent) :
    (workerStep s ev).2 = .breakLoop ↔ (ev = .stopFired ∨ ev = .taskChanClosed) := by
  cases ev with
  | stopFired => simp [workerStep]
  | wakerMsg =>
    simp only [workerStep]
    rcases hp : pollNext s.tasks with ⟨r, ts⟩
    rcases r with _ | r <;> simp [MyWaker.wake_by_ref]
  | cleanTick => simp [workerStep]
  | newTask msg => rcases msg with _ | t <;> simp [workerStep, MyWaker.wake_by_ref]
  | taskChanClosed => simp [workerStep]

/-- Claim C3: for the matcher compiled from `/users/:id/*`, `gen_params`
on `/users/42/a/b` yields the mapping `id -> 42`, `* -> a/b`; and on every
path the compiled regex does not match, `gen_params` returns `None`. -/
theorem gen_params_example_and_none_on_mismatch :
    (PathMatcher.new "/users/:id/*".data).gen_params "/users/42/a/b".data
      = some [("id".data, "42".data), ("*".data, "a/b".data)]
    ∧ ∀ path, (PathMatcher.new "/users/:id/*".data).regexMatches path = false →
        (PathMatcher.new "/users/:id/*".data).gen_params path = none := by
  constructor
  · decide
  · intro path h
    rcases hr : regexCaptures (PathMatcher.new "/users/:id/*".data).regexToks path with
      _ | caps
    · simp [PathMatcher.gen_params, hr]
    · simp [PathMatcher.regexMatches, hr] at h

/-- Witness for claim C3 at a concrete non-matching path. -/
theorem gen_params_none_witness :
    (PathMatcher.new "/users/:id/*".data).regexMatches "/nope".data = false
    ∧ (PathMatcher.new "/users/:id/*".data).gen_params "/nope".data = none :=
  ⟨by decide,
    gen_params_example_and_none_on_mismatch.2 "/nope".data (by decide)⟩

/-- The loop of `PathMatcher::new` renders each token to its regex text
and collects the parameter names in token order. -/
theorem buildLoop_eq (ts : List Tok) :
    buildLoop ts = ((ts.map renderTok).flatten, ts.filterMap tokParamName) := by
  induction ts with
  | nil => rfl
  | cons t ts ih => cases t <;> simp [buildLoop, renderTok, tokParamName, ih]

/-- Claim C4: for every pattern, the compiled regex starts with `^` and
ends with `$`; it is exactly the anchor, the leading `/` when the pattern
lacks one, and the tokens rendered in order (literal portions
regex-escaped, `:name` as `([^/]+)`, `*` as `(.*)`); and `param_names`
lists the `:name` / `*` tokens in their left-to-right order of occurrence
(with `*` named `*`). -/
theorem new_regex_anchored_escaped_ordered (pattern : List Char) :
    (PathMatcher.new pattern).regexStr.head? = some '^'
    ∧ (PathMatcher.new pattern).regexStr.getLast? = some '$'
    ∧ (PathMatcher.new pattern).regexStr
      = '^' :: (((PathMatcher.new pattern).regexToks.map renderTok).flatten ++ ['$'])
    ∧ (PathMatcher.new pattern).regexToks
      = (if pattern.head? = some '/' then [] else [Tok.lit ['/']]) ++ scan pattern
    ∧ (PathMatcher.new pattern).param_names = (scan pattern).filterMap tokParamName := by
  rcases hbl :
    buildLoop ((if pattern.head? = some '/' then [] else [Tok.lit ['/']]) ++ scan pattern)
    with ⟨body, names⟩
  have h2 := buildLoop_eq
    ((if pattern.head? = some '/' then [] else [Tok.lit ['/']]) ++ scan pattern)
  rw [hbl] at h2
  injection h2 with hbody hnames
  have hm : PathMatcher.new pattern =
      { path := pattern
        regexStr := '^' :: (body ++ ['$'])
        regexToks :=
          (if pattern.head? = some '/' then [] else [Tok.lit ['/']]) ++ scan pattern
        param_names := names } := by
    simp only [PathMatcher.new, hbl]
  rw [hm]
  refine ⟨rfl, ?_, ?_, rfl, ?_⟩
  · rw [show ('^' :: (body ++ ['$'])) = ('^' :: body) ++ '$' :: [] by simp,
      List.getLast?_append_cons]
    rfl
  · simp only [hbody]
  · simp only [hnames, List.filterMap_append]
    split <;> rfl

/-- Pieces produced by `splitChars` contain no separator character. -/
theorem splitChars_sep_false (p : Char → Bool) :
    ∀ l s, s ∈ splitChars p l → ∀ c ∈ s, p c = false := by
  intro l
  induction l with
  | nil =>
    intro s hs c hc
    simp [splitChars] at hs
    subst hs
    simp at hc
  | cons a l ih =>
    intro s hs c hc
    cases hpa : p a with
    | true =>
      simp [splitChars, hpa] at hs
      rcases hs with hs | hs
      · subst hs; simp at hc
      · exact ih s hs c hc
    | false =>
      simp only [splitChars, hpa, Bool.false_eq_true, if_false] at hs
      rcases hsp : splitChars p l with _ | ⟨s0, ss⟩ <;> rw [hsp] at hs <;> simp at hs
      · subst hs
        simp at hc
        subst hc
        exact hpa
      · rcases hs with hs | hs
        · subst hs
          rcases List.mem_cons.mp hc with hc | hc
          · subst hc; exact hpa
          · exact ih s0 (hsp ▸ List.mem_cons_self ..) c hc
        · exact ih s (hsp ▸ List.mem_cons_of_mem _ hs) c hc

/-- Every segment the `normalize_path_str` loop keeps came from its input
(minus the `..` segments), and `..` itself is never kept. -/
theorem normLoop_mem (Q : List Char → Prop) :
    ∀ (ss accRev : List (List Char)),
      (∀ s ∈ accRev, Q s ∧ s ≠ ['.', '.']) →
      (∀ s ∈ ss, Q s) →
      ∀ s ∈ normLoop accRev ss, Q s ∧ s ≠ ['.', '.'] := by
  intro ss
  induction ss with
  | nil =>
    intro acc hacc _ s hs
    simp [normLoop] at hs
    exact hacc s hs
  | cons a ss ih =>
    intro acc hacc hss s hs
    simp only [normLoop] at hs
    by_cases ha : a = ['.', '.']
    · rw [if_pos ha] at hs
      exact ih acc.tail (fun t ht => hacc t (List.mem_of_mem_tail ht))
        (fun t ht => hss t (List.mem_cons_of_mem _ ht)) s hs
    · rw [if_neg ha] at hs
      refine ih (a :: acc) (fun t ht => ?_)
        (fun t ht => hss t (List.mem_cons_of_mem _ ht)) s hs
      rcases List.mem_cons.mp ht with h | h
      · subst h; exact ⟨hss t (List.mem_cons_self ..), ha⟩
      · exact hacc t h

/-- Splitting a string with no separator yields the one piece. -/
theorem splitChars_of_no_sep (p : Char → Bool) :
    ∀ s, (∀ c ∈ s, p c = false) → splitChars p s = [s] := by
  intro s
  induction s with
  | nil => intro _; rfl
  | cons a s ih =>
    intro h
    have hpa := h a (List.mem_cons_self ..)
    simp [splitChars, hpa, ih fun c hc => h c (List.mem_cons_of_mem _ hc)]

/-- Splitting at a leading separator-free piece peels it off. -/
theorem splitChars_append_sep (p : Char → Bool) (sep : Char) (hsep : p sep = true) :
    ∀ s rest, (∀ c ∈ s, p c = false) →
      splitChars p (s ++ sep :: rest) = s :: splitChars p rest := by
  intro s
  induction s with
  | nil => intro rest _; simp [splitChars, hsep]
  | cons a s ih =>
    intro rest h
    have hpa := h a (List.mem_cons_self ..)
    simp [splitChars, hpa, ih rest fun c hc => h c (List.mem_cons_of_mem _ hc)]

/-- Splitting undoes joining for a non-empty list of separator-free
segments. -/
theorem splitChars_joinSep (p : Char → Bool) (sep : Char) (hsep : p sep = true) :
    ∀ ss, ss ≠ [] → (∀ s ∈ ss, ∀ c ∈ s, p c = false) →
      splitChars p (joinSep [sep] ss) = ss := by
  intro ss
  induction ss with
  | nil => intro h; exact absurd rfl h
  | cons s ss ih =>
    intro _ h
    cases ss with
    | nil => simpa [joinSep] using splitChars_of_no_sep p s (h s (List.mem_cons_self ..))
    | cons s2 ss2 =>
      have hj : joinSep [sep] (s :: s2 :: ss2) = s ++ sep :: joinSep [sep] (s2 :: ss2) := by
        simp [joinSep]
      rw [hj, splitChars_append_sep p sep hsep s _ (h s (List.mem_cons_self ..)),
        ih (by simp) fun t ht => h t (List.mem_cons_of_mem _ ht)]

/-- Claim C10, counterexample: on input `a/..` the normalized string is
empty, and splitting it on `/` yields one empty segment. -/
theorem normalize_empty_segment_cex :
    normalize_path_str "a/..".data = []
    ∧ ([] : List Char) ∈ splitChars (fun c => c = '/') (normalize_path_str "a/..".data) := by
  decide

/-- Claim C10, amended: for every input, each segment of the normalized
string split on `/` is neither `.` nor `..`, and is non-empty unless the
whole normalized string is empty (in which case the split is the single
empty segment). -/
theorem normalize_segments_clean (p : List Char) (s : List Char)
    (hs : s ∈ splitChars (fun c => c = '/') (normalize_path_str p)) :
    s ≠ ['.'] ∧ s ≠ ['.', '.'] ∧ (normalize_path_str p ≠ [] → s ≠ []) := by
  have hgood : ∀ t ∈ normLoop []
      ((splitChars (fun c => c = '/' || c = '\\') p).filter
        fun u => decide (u ≠ [] ∧ u ≠ ['.'])),
      ((t ≠ [] ∧ t ≠ ['.']) ∧ ∀ c ∈ t, (c = '/' || c = '\\' : Bool) = false)
        ∧ t ≠ ['.', '.'] := by
    refine normLoop_mem _ _ [] (fun t ht => absurd ht (List.not_mem_nil t)) ?_
    intro t ht
    have h1 := List.mem_filter.mp ht
    exact ⟨of_decide_eq_true h1.2, splitChars_sep_false _ _ _ h1.1⟩
  have hnorm : normalize_path_str p =
      joinSep ['/'] (normLoop []
        ((splitChars (fun c => c = '/' || c = '\\') p).filter
          fun u => decide (u ≠ [] ∧ u ≠ ['.']))) := rfl
  rcases hseg : normLoop []
      ((splitChars (fun c => c = '/' || c = '\\') p).filter
        fun u => decide (u ≠ [] ∧ u ≠ ['.'])) with _ | ⟨t0, ts⟩
  · rw [hnorm, hseg] at hs
    simp [joinSep, splitChars] at hs
    subst hs
    refine ⟨by decide, by decide, fun hne _ => hne ?_⟩
    rw [hnorm, hseg]
    rfl
  · have hsplit : splitChars (fun c => c = '/') (normalize_path_str p) = t0 :: ts := by
      rw [hnorm, hseg]
      refine splitChars_joinSep _ '/' (by simp) (t0 :: ts) (by simp) ?_
      intro t ht c hc
      have := ((hgood t (hseg ▸ ht)).1.2 c hc)
      exact (Bool.or_eq_false_iff.mp this).1
    rw [hsplit] at hs
    have hg := hgood s (hseg ▸ hs)
    exact ⟨hg.1.1.2, hg.2, fun _ => hg.1.1.1⟩

/-- Witness for claim C10 at a concrete path. -/
theorem normalize_segments_witness :
    ("a".data ∈ splitChars (fun c => c = '/') (normalize_path_str "/a/./b/../c".data))
    ∧ ("a".data ≠ ['.'] ∧ "a".data ≠ ['.', '.']
        ∧ (normalize_path_str "/a/./b/../c".data ≠ [] → "a".data ≠ [])) :=
  ⟨by decide, normalize_segments_clean _ _ (by decide)⟩

end Hive
